import Mathlib

/-!
Verification of the ESP32 plant-monitor firmware core
(`src/firmware/sketch_github.ino`): URL encoding, SAS token signing,
the tiny JSON/topic extractors, the DPS provisioning handshake, the
IoT Hub session maintenance and the soil calibration arithmetic.

Strings are embedded as `List Char` (Arduino `String` is a byte
string; bytes that matter as numbers are embedded as `Nat` < 256).
-/

/-- Brace characters, kept out of string literals. -/
def lbrace : Char := Char.ofNat 123

/-- Closing brace character. -/
def rbrace : Char := Char.ofNat 125

/-- First index at which `patt` occurs in `s`, embedding Arduino
`String::indexOf(substr)` (which returns -1, embedded as `none`,
when absent). -/
def findSub : List Char → List Char → Option Nat
  | patt, [] => if patt = [] then some 0 else none
  | patt, c :: rest =>
    if patt.isPrefixOf (c :: rest) then some 0
    else (findSub patt rest).map (· + 1)

/-- The pattern `"key":"` built by `jsonGet` (sketch line 174). -/
def keyPattern (key : List Char) : List Char :=
  '"' :: key ++ '"' :: ':' :: '"' :: []

/-- The pattern searched by `jsonGetNested` (sketch line 185);
its final character is an opening brace. -/
def parentPattern (key : List Char) : List Char :=
  '"' :: key ++ '"' :: ':' :: lbrace :: []

/-- Embedding of `jsonGet` (sketch lines 172-181): find `"key":"`,
return the text up to the next quote, empty string when absent. -/
def jsonGet (s key : List Char) : List Char :=
  match findSub (keyPattern key) s with
  | none => []
  | some p =>
    let rest := s.drop (p + (keyPattern key).length)
    match findSub ['"'] rest with
    | none => []
    | some q => rest.take q

/-- Embedding of `jsonGetNested` (sketch lines 183-193): find the
parent pattern, cut at the first closing brace after it (end of
string when there is none; the brace itself is kept, matching
`substring(p, end+1)`), then run `jsonGet` inside. -/
def jsonGetNested (s parentKey childKey : List Char) : List Char :=
  match findSub (parentPattern parentKey) s with
  | none => []
  | some p =>
    let rest := s.drop (p + (parentPattern parentKey).length)
    let e := (findSub [rbrace] rest).getD rest.length
    jsonGet (rest.take (e + 1)) childKey

/-- `atol`-style whitespace, as accepted by Arduino `String::toInt`. -/
def isAtolSpace (c : Char) : Bool :=
  c = ' ' || c = '\t' || c = '\n' || c = '\x0b' || c = '\x0c' || c = '\r'

/-- Digit accumulator of `atol`: consume decimal digits, stop at the
first non-digit. -/
def atolNatAux : List Char → Nat → Nat
  | [], acc => acc
  | c :: rest, acc =>
    if 48 ≤ c.toNat ∧ c.toNat ≤ 57 then
      atolNatAux rest (acc * 10 + (c.toNat - 48))
    else acc

/-- Embedding of `String::toInt` (newlib `atol`): skip whitespace,
optional sign, then decimal digits; 0 when no digit is present. -/
def atol (l : List Char) : Int :=
  let l₁ := l.dropWhile isAtolSpace
  if l₁.head? = some '-' then -(atolNatAux (l₁.drop 1) 0 : Int)
  else if l₁.head? = some '+' then (atolNatAux (l₁.drop 1) 0 : Int)
  else (atolNatAux l₁ 0 : Int)

/-- The literal `"/res/"` searched in DPS response topics. -/
def resPattern : List Char := ['/', 'r', 'e', 's', '/']

/-- Embedding of `topicStatusCode` (sketch lines 164-170): find
`"/res/"`, bounds-check `p + 9 > length`, then convert the three
characters after the pattern. -/
def topicStatusCode (topic : List Char) : Int :=
  match findSub resPattern topic with
  | none => -1
  | some p =>
    if p + 9 > topic.length then -1
    else atol ((topic.drop (p + 5)).take 3)

/-! ### URL encoding (sketch lines 55-72) -/

/-- The ESP32 toolchain's `char` is signed: a byte b ≥ 0x80 is read
as b - 256 in comparisons and shifts. -/
def signedChar (b : Nat) : Int := if b < 128 then (b : Int) else (b : Int) - 256

/-- The hex table `"0123456789ABCDEF"` of `urlEncode` (line 57). -/
def urlHexTable : List Char := "0123456789ABCDEF".toList

/-- One character of `urlEncode` (lines 59-69), with the source's
signed-char comparisons and `(c >> 4) & 0xF` / `c & 0xF` nibbles
(arithmetic shift = floor division, masking = nonneg remainder). -/
def urlEncodeByte (b : Nat) : List Char :=
  let c := signedChar b
  if (97 ≤ c ∧ c ≤ 122) ∨ (65 ≤ c ∧ c ≤ 90) ∨ (48 ≤ c ∧ c ≤ 57) ∨
      c = 45 ∨ c = 95 ∨ c = 46 ∨ c = 126 then
    [Char.ofNat b]
  else
    ['%', urlHexTable.getD ((c.fdiv 16).emod 16).toNat '0',
      urlHexTable.getD (c.emod 16).toNat '0']

/-- Embedding of `urlEncode` (lines 55-72) over the byte string. -/
def urlEncode : List Nat → List Char
  | [] => []
  | b :: rest => urlEncodeByte b ++ urlEncode rest

/-- The unreserved set exactly as the specification words it:
`[A-Za-z0-9-_.~]`, as a predicate on byte values. -/
def specUnreserved (b : Nat) : Prop :=
  (65 ≤ b ∧ b ≤ 90) ∨ (97 ≤ b ∧ b ≤ 122) ∨ (48 ≤ b ∧ b ≤ 57) ∨
    b = 45 ∨ b = 95 ∨ b = 46 ∨ b = 126

instance (b : Nat) : Decidable (specUnreserved b) := by
  unfold specUnreserved
  infer_instance

/-- Uppercase hexadecimal digit of a nibble, as the specification
describes it (`%XX` uppercase hex). -/
def ucHexDigit (n : Nat) : Char :=
  if n < 10 then Char.ofNat (48 + n) else Char.ofNat (55 + n)

/-- The per-byte encoding exactly as the claim words it: unreserved
bytes pass through, every other byte becomes `%` plus the two
uppercase hex digits of its value. -/
def specEncodeByte (b : Nat) : List Char :=
  if specUnreserved b then [Char.ofNat b]
  else ['%', ucHexDigit (b / 16), ucHexDigit (b % 16)]

/-- Spec-side whole-string encoder built from `specEncodeByte`. -/
def specUrlEncode : List Nat → List Char
  | [] => []
  | b :: rest => specEncodeByte b ++ specUrlEncode rest

/-- Hexadecimal digits accepted by the percent decoder. -/
def isHexDigitChar (c : Char) : Bool :=
  (48 ≤ c.toNat ∧ c.toNat ≤ 57) ∨ (65 ≤ c.toNat ∧ c.toNat ≤ 70) ∨
    (97 ≤ c.toNat ∧ c.toNat ≤ 102)

/-- Value of a hexadecimal digit character. -/
def hexDigitVal (c : Char) : Nat :=
  if c.toNat ≤ 57 then c.toNat - 48
  else if c.toNat ≤ 70 then c.toNat - 55
  else c.toNat - 87

/-- Percent decoding as the round-trip claim words it: each `%`
followed by two hex digits becomes that byte, every other character
passes through as its own byte value. -/
def percentDecode : List Char → List Nat
  | [] => []
  | '%' :: h1 :: h2 :: rest' =>
    if isHexDigitChar h1 ∧ isHexDigitChar h2 then
      (hexDigitVal h1 * 16 + hexDigitVal h2) :: percentDecode rest'
    else Char.toNat '%' :: percentDecode (h1 :: h2 :: rest')
  | c :: rest => c.toNat :: percentDecode rest

/-! ### DPS provisioning handshake (sketch lines 208-311)

The transport is abstracted by scripts: the initial 20-second wait
window delivers a finite list of responses (exhaustion = the window
elapsing with nothing more arriving), and each of the bounded poll
attempts receives at most one optional reply (the code breaks out of
its 5-second inner wait after the first message), `none` standing
for that attempt's timeout. -/

/-- A DPS response as captured by `mqttCallback`: topic + payload. -/
structure DpsResp where
  topic : List Char
  payload : List Char
deriving DecidableEq

/-- Result of `dpsRegisterAndGetHub`: `true` with the parsed
hub/deviceId globals, or `false`. -/
inductive DpsOutcome
  | assigned (hub deviceId : List Char)
  | failed
deriving DecidableEq

/-- Outcome of the first 20-second wait loop (lines 246-275). -/
inductive InitOutcome
  | immediate (hub deviceId : List Char)
  | gotOp (opId : List Char)
  | timedOut
deriving DecidableEq

def opIdKey : List Char := "operationId".toList

def statusKey : List Char := "status".toList

def regStateKey : List Char := "registrationState".toList

def assignedHubKey : List Char := "assignedHub".toList

def deviceIdKey : List Char := "deviceId".toList

def assignedVal : List Char := "assigned".toList

/-- The wait loop after publishing the registration request (lines
248-271): a 202 breaks out with the payload's operationId; a 200
returns immediately when both nested fields are nonempty, otherwise
the loop keeps waiting; any other status is logged and ignored;
window exhaustion is a timeout. -/
def initialWait : List DpsResp → InitOutcome
  | [] => .timedOut
  | r :: rest =>
    let code := topicStatusCode r.topic
    if code = 202 then .gotOp (jsonGet r.payload opIdKey)
    else if code = 200 then
      let hub := jsonGetNested r.payload regStateKey assignedHubKey
      let dev := jsonGetNested r.payload regStateKey deviceIdKey
      if hub ≠ [] ∧ dev ≠ [] then .immediate hub dev else initialWait rest
    else initialWait rest

/-- The poll loop (lines 278-308): up to `fuel` attempts; an attempt
with no reply moves on; a reply with status 200 and body status
`assigned` returns at once — `true` only when both nested fields are
nonempty (line 301) — and any other reply just ends the attempt. -/
def pollAttempts : Nat → List (Option DpsResp) → DpsOutcome
  | 0, _ => .failed
  | fuel + 1, [] => pollAttempts fuel []
  | fuel + 1, none :: rest => pollAttempts fuel rest
  | fuel + 1, some r :: rest =>
    if topicStatusCode r.topic = 200 then
      if jsonGet r.payload statusKey = assignedVal then
        let hub := jsonGetNested r.payload regStateKey assignedHubKey
        let dev := jsonGetNested r.payload regStateKey deviceIdKey
        if hub ≠ [] ∧ dev ≠ [] then .assigned hub dev else .failed
      else pollAttempts fuel rest
    else pollAttempts fuel rest

/-- The poll retry bound of the source's `for` loop (line 278). -/
def DPS_POLL_TRIES : Nat := 20

/-- Embedding of `dpsRegisterAndGetHub` (lines 208-311): run the
initial wait; with no operationId (timeout, or a 202 carrying an
empty one) fail (lines 272-275); otherwise poll. -/
def dpsRegisterAndGetHub (initial : List DpsResp)
    (polls : List (Option DpsResp)) : DpsOutcome :=
  match initialWait initial with
  | .immediate hub dev => .assigned hub dev
  | .timedOut => .failed
  | .gotOp opId => if opId = [] then .failed else pollAttempts DPS_POLL_TRIES polls

/-- A DPS response topic carrying status 200. -/
def topic200 : List Char := "$dps/registrations/res/200/?$rid=1".toList

/-- A DPS response topic carrying status 202. -/
def topic202 : List Char := "$dps/registrations/res/202/?$rid=1".toList

/-- A DPS response topic carrying status 500. -/
def topic500 : List Char := "$dps/registrations/res/500/?$rid=1".toList

/-- Concrete prefix of an assignment payload, before the status. -/
def segA : List Char := lbrace :: "\"operationId\":\"op-1\",".toList

/-- Quote-comma separator between JSON string fields. -/
def segB : List Char := "\",".toList

/-- An `assigned` payload whose `registrationState` carries the given
`assignedHub` and `deviceId` values. -/
def assignedBody (hub dev : List Char) : List Char :=
  segA ++ (keyPattern statusKey ++ (assignedVal ++ (segB ++
    (parentPattern regStateKey ++ (keyPattern assignedHubKey ++ (hub ++ (segB ++
      (keyPattern deviceIdKey ++ (dev ++ ('"' :: rbrace :: rbrace :: []))))))))))

/-- A status-200 response with an assignment payload. -/
def resp200 (hub dev : List Char) : DpsResp := ⟨topic200, assignedBody hub dev⟩

/-- A status-202 response carrying operationId `op-1`. -/
def resp202 : DpsResp :=
  ⟨topic202, lbrace :: ("\"operationId\":\"op-1\",\"status\":\"assigning\"".toList ++ [rbrace])⟩

/-- A status-500 response with an empty-object payload. -/
def resp500 : DpsResp := ⟨topic500, lbrace :: [rbrace]⟩

/-- Well-formed JSON string value for these payloads: free of quotes
and closing braces. -/
def jsonValueOk (v : List Char) : Prop := ∀ c ∈ v, c ≠ '"' ∧ c ≠ rbrace

/-- Concrete prefix of the assignment payload up to the
`registrationState` pattern. -/
def segC : List Char := segA ++ (keyPattern statusKey ++ (assignedVal ++ segB))

/-- The quote- and brace-free region holding the two nested fields. -/
def hubDevRegion (hub dev : List Char) : List Char :=
  keyPattern assignedHubKey ++ (hub ++ ('"' :: ',' ::
    (keyPattern deviceIdKey ++ (dev ++ ['"']))))

/-- A poll reply that is not a definitive status-200 `assigned`
response (or no reply at all). -/
def pollBenign (x : Option DpsResp) : Prop :=
  ∀ r, x = some r →
    ¬(topicStatusCode r.topic = 200 ∧ jsonGet r.payload statusKey = assignedVal)

instance (v : List Char) : Decidable (jsonValueOk v) := by
  unfold jsonValueOk
  infer_instance

/-- Modelled from the spec: the claim describes isolation up to the
brace MATCHING the parent's opening one; this walks the text with a
nesting depth, returning the index of the balancing brace. -/
def matchingBracePos : List Char → Nat → Nat → Option Nat
  | [], _, _ => none
  | c :: rest, i, depth =>
    if c = rbrace then
      if depth = 0 then some i else matchingBracePos rest (i + 1) (depth - 1)
    else if c = lbrace then matchingBracePos rest (i + 1) (depth + 1)
    else matchingBracePos rest (i + 1) depth

/-- Modelled from the spec: `getNestedField` as the claim words it —
isolate up to the matching brace (or end of text), then `getField`
within that substring. -/
def jsonGetNestedSpec (s parentKey childKey : List Char) : List Char :=
  match findSub (parentPattern parentKey) s with
  | none => []
  | some p =>
    let rest := s.drop (p + (parentPattern parentKey).length)
    let e := (matchingBracePos rest 0 0).getD rest.length
    jsonGet (rest.take (e + 1)) childKey

/-- First-closing-brace isolation, stated structurally: the maximal
brace-free prefix of the content after the parent pattern, plus that
brace when there is one. -/
def isolateFirstBrace (s parentKey : List Char) : List Char :=
  match findSub (parentPattern parentKey) s with
  | none => []
  | some p =>
    let rest := s.drop (p + (parentPattern parentKey).length)
    let t := rest.takeWhile (fun c => c != rbrace)
    if t.length < rest.length then t ++ [rbrace] else t

/-! ### Soil calibration (sketch lines 352-357)

The C expression computes in `float`; the arithmetic is embedded
exactly over `ℚ` (the integer operands up to 180000 are exact in
single precision and the division's monotonicity is shared). -/

/-- Calibration constant: raw ADC reading in dry soil (line 30). -/
def SOIL_RAW_DRY : Int := 3000

/-- Calibration constant: raw ADC reading in water (line 31). -/
def SOIL_RAW_WET : Int := 1200

/-- Arduino's `constrain(amt, low, high)` macro. -/
def constrain (amt low high : Int) : Int :=
  if amt < low then low else if amt > high then high else amt

/-- `soilRawToPercent` generalized over the calibration bounds:
clamp, then map linearly so dry ↦ 0 and wet ↦ 100. -/
def soilRawToPercentCal (dry wet raw : Int) : ℚ :=
  100 * ((dry : ℚ) - ((constrain raw wet dry : Int) : ℚ)) / ((dry : ℚ) - (wet : ℚ))

/-- Embedding of `soilRawToPercent` (lines 352-357) at the sketch's
calibration values. -/
def soilRawToPercent (raw : Int) : ℚ :=
  soilRawToPercentCal SOIL_RAW_DRY SOIL_RAW_WET raw

/-! ### IoT Hub session maintenance (sketch lines 319-344)

`ensureIoTHubMqtt` is embedded as a transition on an explicit
session state: whether the transport is connected, the global
`sasExpiry`, and a count of tokens derived so far (each
`buildIoTHubSas` call derives one and sets `sasExpiry = now + TTL`,
lines 321-324). `now` is the wall clock at the tick and
`connectSucceeds` abstracts the transport's connect result. -/

/-- Session state owned by the sketch's globals. -/
structure HubSession where
  connected : Bool
  sasExpiry : Nat
  tokensIssued : Nat
deriving DecidableEq

/-- The token lifetime `SAS_TTL_SECS = 60 * 60` (sketch line 48). -/
def SAS_TTL_SECS : Nat := 60 * 60

/-- Embedding of `ensureIoTHubMqtt` (lines 327-344): when connected,
return true at once — no expiry check, no token derivation; when not,
derive a fresh token (`buildIoTHubSas`, lines 319-325: one more token
issued, `sasExpiry = now + SAS_TTL_SECS`) and attempt the connect. -/
def ensureIoTHubMqtt (now : Nat) (connectSucceeds : Bool) (s : HubSession) :
    Bool × HubSession :=
  if s.connected then (true, s)
  else (connectSucceeds, ⟨connectSucceeds, now + SAS_TTL_SECS, s.tokensIssued + 1⟩)

/-! ### SHA-256 / HMAC (models of the mbedTLS calls in lines 110-122) -/

def w32 (n : Nat) : Nat := n % 4294967296

def rotr32 (n x : Nat) : Nat := w32 ((x >>> n) ||| (x <<< (32 - n)))

def shaCh (x y z : Nat) : Nat := (x &&& y) ^^^ ((x ^^^ 4294967295) &&& z)

def shaMaj (x y z : Nat) : Nat := (x &&& y) ^^^ (x &&& z) ^^^ (y &&& z)

def bigSigma0 (x : Nat) : Nat := rotr32 2 x ^^^ rotr32 13 x ^^^ rotr32 22 x

def bigSigma1 (x : Nat) : Nat := rotr32 6 x ^^^ rotr32 11 x ^^^ rotr32 25 x

def smallSigma0 (x : Nat) : Nat := rotr32 7 x ^^^ rotr32 18 x ^^^ (x >>> 3)

def smallSigma1 (x : Nat) : Nat := rotr32 17 x ^^^ rotr32 19 x ^^^ (x >>> 10)

def sha256K : List Nat :=
  [1116352408, 1899447441, 3049323471, 3921009573, 961987163,
   1508970993, 2453635748, 2870763221, 3624381080, 310598401,
   607225278, 1426881987, 1925078388, 2162078206, 2614888103,
   3248222580, 3835390401, 4022224774, 264347078, 604807628,
   770255983, 1249150122, 1555081692, 1996064986, 2554220882,
   2821834349, 2952996808, 3210313671, 3336571891, 3584528711,
   113926993, 338241895, 666307205, 773529912, 1294757372,
   1396182291, 1695183700, 1986661051, 2177026350, 2456956037,
   2730485921, 2820302411, 3259730800, 3345764771, 3516065817,
   3600352804, 4094571909, 275423344, 430227734, 506948616,
   659060556, 883997877, 958139571, 1322822218, 1537002063,
   1747873779, 1955562222, 2024104815, 2227730452, 2361852424,
   2428436474, 2756734187, 3204031479, 3329325298]

def sha256H0 : List Nat :=
  [1779033703, 3144134277, 1013904242, 2773480762, 1359893119,
   2600822924, 528734635, 1541459225]

/-- Big-endian 8-byte encoding of the bit length. -/
def be64 (n : Nat) : List Nat :=
  [(n >>> 56) % 256, (n >>> 48) % 256, (n >>> 40) % 256, (n >>> 32) % 256,
   (n >>> 24) % 256, (n >>> 16) % 256, (n >>> 8) % 256, n % 256]

/-- SHA-256 padding: append 0x80, zeros to 56 mod 64, then the
64-bit big-endian bit length. -/
def sha256Pad (msg : List Nat) : List Nat :=
  msg ++ [0x80] ++ List.replicate ((119 - msg.length % 64) % 64) 0
    ++ be64 (8 * msg.length)

/-- Big-endian packing of bytes into 32-bit words. -/
def bytesToWords : List Nat → List Nat
  | b0 :: b1 :: b2 :: b3 :: rest =>
    (((b0 * 256 + b1) * 256 + b2) * 256 + b3) :: bytesToWords rest
  | _ => []

/-- One step of the message-schedule extension, on the reversed
schedule accumulated so far. -/
def scheduleStep (revW : List Nat) : Nat :=
  w32 (smallSigma1 (revW.getD 1 0) + revW.getD 6 0
    + smallSigma0 (revW.getD 14 0) + revW.getD 15 0)

def scheduleRun : Nat → List Nat → List Nat
  | 0, revW => revW
  | n + 1, revW => scheduleRun n (scheduleStep revW :: revW)

/-- The 64-word message schedule of one 16-word block. -/
def schedule (block : List Nat) : List Nat :=
  (scheduleRun 48 block.reverse).reverse

/-- One SHA-256 round on the eight-word working state. -/
def compressRound (state : List Nat) (kw : Nat × Nat) : List Nat :=
  match state with
  | [a, b, c, d, e, f, g, h] =>
    let t1 := w32 (h + bigSigma1 e + shaCh e f g + kw.1 + kw.2)
    let t2 := w32 (bigSigma0 a + shaMaj a b c)
    [w32 (t1 + t2), a, b, c, w32 (d + t1), e, f, g]
  | other => other

def sha256Compress (H block : List Nat) : List Nat :=
  let final := (sha256K.zip (schedule block)).foldl compressRound H
  List.zipWith (fun x y => w32 (x + y)) H final

/-- Fold the compression over the 16-word blocks (the padded
message is always a whole number of blocks). -/
def sha256Process : List Nat → List Nat → List Nat
  | H, w0 :: w1 :: w2 :: w3 :: w4 :: w5 :: w6 :: w7 ::
      w8 :: w9 :: w10 :: w11 :: w12 :: w13 :: w14 :: w15 :: rest =>
    sha256Process (sha256Compress H
      [w0, w1, w2, w3, w4, w5, w6, w7, w8, w9, w10, w11, w12, w13, w14, w15]) rest
  | H, _ => H

/-- SHA-256 of a byte string, as 32 bytes. -/
def sha256 (msg : List Nat) : List Nat :=
  (sha256Process sha256H0 (bytesToWords (sha256Pad msg))).foldr
    (fun h acc => (h >>> 24) % 256 :: (h >>> 16) % 256 :: (h >>> 8) % 256
      :: h % 256 :: acc) []

/-- HMAC-SHA256 (the mbedTLS `md_hmac` calls, lines 110-122). -/
def hmacSha256 (key msg : List Nat) : List Nat :=
  let k0 := if 64 < key.length then sha256 key else key
  let kPad := k0 ++ List.replicate (64 - k0.length) 0
  let ipad := kPad.map (fun b => b ^^^ 0x36)
  let opad := kPad.map (fun b => b ^^^ 0x5c)
  sha256 (opad ++ sha256 (ipad ++ msg))

/-! ### Base64 (models of the mbedTLS calls in lines 75-96) -/

def b64Alphabet : List Char :=
  "ABCDEFGHIJKLMNOPQRSTUVWXYZabcdefghijklmnopqrstuvwxyz0123456789+/".toList

def b64Char (n : Nat) : Char := b64Alphabet.getD n 'A'

/-- RFC 4648 base64 encoding with padding, as produced by
`mbedtls_base64_encode`. -/
def base64Encode : List Nat → List Char
  | [] => []
  | [b0] => [b64Char (b0 >>> 2), b64Char ((b0 % 4) <<< 4), '=', '=']
  | [b0, b1] =>
    [b64Char (b0 >>> 2), b64Char (((b0 % 4) <<< 4) ||| (b1 >>> 4)),
     b64Char ((b1 % 16) <<< 2), '=']
  | b0 :: b1 :: b2 :: rest =>
    b64Char (b0 >>> 2) :: b64Char (((b0 % 4) <<< 4) ||| (b1 >>> 4))
      :: b64Char (((b1 % 16) <<< 2) ||| (b2 >>> 6)) :: b64Char (b2 % 64)
      :: base64Encode rest

/-- Value of one base64 alphabet character. -/
def b64CharVal (c : Char) : Option Nat := b64Alphabet.findIdx? (· = c)

/-- Base64 decoding, `none` on invalid input (`mbedtls_base64_decode`
returning an error, line 77): groups of four characters, at most two
`=` padding characters at the very end. -/
def base64Decode : List Char → Option (List Nat)
  | [] => some []
  | [c1, c2, '=', '='] =>
    match b64CharVal c1, b64CharVal c2 with
    | some v1, some v2 => some [((v1 <<< 2) ||| (v2 >>> 4)) % 256]
    | _, _ => none
  | [c1, c2, c3, '='] =>
    match b64CharVal c1, b64CharVal c2, b64CharVal c3 with
    | some v1, some v2, some v3 =>
      some [((v1 <<< 2) ||| (v2 >>> 4)) % 256, (((v2 % 16) <<< 4) ||| (v3 >>> 2)) % 256]
    | _, _, _ => none
  | c1 :: c2 :: c3 :: c4 :: rest =>
    match b64CharVal c1, b64CharVal c2, b64CharVal c3, b64CharVal c4,
        base64Decode rest with
    | some v1, some v2, some v3, some v4, some bs =>
      some ((((v1 <<< 2) ||| (v2 >>> 4)) % 256)
        :: ((((v2 % 16) <<< 4) ||| (v3 >>> 2)) % 256)
        :: ((((v3 % 4) <<< 6) ||| v4) % 256) :: bs)
    | _, _, _, _, _ => none
  | _ => none

/-- `tolower` per byte, as `String::toLowerCase` applies it. -/
def toLowerByte (b : Nat) : Nat := if 65 ≤ b ∧ b ≤ 90 then b + 32 else b

def toLowerBytes (bs : List Nat) : List Nat := bs.map toLowerByte

/-- Embedding of `buildSasToken` (sketch lines 101-130): decode the
base64 device key (empty result on failure, line 105, or when the
decoded key overflows the 64-byte buffer), lowercase the resource
URI, sign `urlEncode(sr) + "\n" + decimal(expiry)` with
HMAC-SHA256, base64- then url-encode the signature, and compose the
`SharedAccessSignature` string. `expiry` is printed through the
source's `(unsigned long)` cast, i.e. modulo 2^32. -/
def buildSasToken (resourceUri : List Nat) (keyBase64 : List Char)
    (expiry : Nat) : List Char :=
  match base64Decode keyBase64 with
  | none => []
  | some key =>
    if 64 < key.length then []
    else
      let sr := toLowerBytes resourceUri
      let encSr := urlEncode sr
      let toSign := encSr.map Char.toNat
        ++ (10 :: (Nat.repr (expiry % 4294967296)).toList.map Char.toNat)
      let sig := urlEncode ((base64Encode (hmacSha256 key toSign)).map Char.toNat)
      "SharedAccessSignature sr=".toList ++ encSr
        ++ ("&sig=".toList ++ (sig
        ++ ("&se=".toList ++ (Nat.repr (expiry % 4294967296)).toList)))

/-! ### Theorems -/

/-! ### Lemmas about `findSub` -/

theorem findSub_nil {p : List Char} (h : p ≠ []) : findSub p [] = none := by
  simp [findSub, h]

theorem findSub_cons_pos {p : List Char} {c : Char} {rest : List Char}
    (h : p.isPrefixOf (c :: rest) = true) : findSub p (c :: rest) = some 0 := by
  simp [findSub, h]

theorem findSub_cons_neg {p : List Char} {c : Char} {rest : List Char}
    (h : p.isPrefixOf (c :: rest) = false) :
    findSub p (c :: rest) = (findSub p rest).map (· + 1) := by
  simp [findSub, h]

theorem findSub_of_isPrefixOf {p s : List Char} (h : p.isPrefixOf s = true) :
    findSub p s = some 0 := by
  cases s with
  | nil =>
    cases p with
    | nil => simp [findSub]
    | cons c cs => simp [List.isPrefixOf] at h
  | cons c rest => exact findSub_cons_pos h

/-- Scanner through a region where no alignment matches: the search
skips the whole region. -/
theorem findSub_append_of_forall_not {p : List Char} (u : List Char) {t : List Char}
    (h : ∀ j, j < u.length → p.isPrefixOf (u.drop j ++ t) = false) :
    findSub p (u ++ t) = (findSub p t).map (· + u.length) := by
  induction u with
  | nil =>
    cases hf : findSub p t <;> simp [hf]
  | cons c u' ih =>
    have h0 : p.isPrefixOf (c :: (u' ++ t)) = false := by
      have := h 0 (by simp)
      simpa using this
    rw [List.cons_append, findSub_cons_neg h0, ih]
    · cases hf : findSub p t <;> (simp [hf]; try omega)
    · intro j hj
      have := h (j + 1) (by simp; omega)
      simpa using this

/-- Scanner through a region that never contains the pattern's first
character: the search skips the whole region. -/
theorem findSub_append_shift {p₀ : Char} {p' : List Char} (u : List Char) {t : List Char}
    (h : ∀ c ∈ u, c ≠ p₀) :
    findSub (p₀ :: p') (u ++ t) = (findSub (p₀ :: p') t).map (· + u.length) := by
  apply findSub_append_of_forall_not
  intro j hj
  have hne : ∀ c ∈ u.drop j, c ≠ p₀ := fun c hc => h c (List.mem_of_mem_drop hc)
  cases hd : u.drop j with
  | nil =>
    exfalso
    have := List.length_drop j u ▸ congrArg List.length hd
    simp at this
    omega
  | cons d rest =>
    have hdne : d ≠ p₀ := hne d (by simp [hd])
    simp [List.isPrefixOf]
    intro hcontra
    exact absurd hcontra.symm hdne

/-- A pattern of the shape `key":"` never matches inside
`value"d...` when `key` and `value` are quote-free and `d` is not a
colon: the first quote of the remainder must line up with the quote
closing the key, and then `d` clashes with the colon. -/
theorem keyPattern_tail_no_prefix (key : List Char) (v : List Char) (d : Char)
    (t : List Char) (hkey : ∀ c ∈ key, c ≠ '"') (hv : ∀ c ∈ v, c ≠ '"')
    (hd : d ≠ ':') :
    (key ++ '"' :: ':' :: '"' :: []).isPrefixOf (v ++ '"' :: d :: t) = false := by
  induction key generalizing v with
  | nil =>
    cases v with
    | nil =>
      have hne : (':' == d) = false := by
        simp
        exact fun hcontra => absurd hcontra.symm hd
      simp [List.isPrefixOf, hne]
    | cons c v' =>
      have hcq : c ≠ '"' := hv c (by simp)
      have hne : ('"' == c) = false := by
        simp
        exact fun hcontra => absurd hcontra.symm hcq
      simp [List.isPrefixOf, hne]
  | cons k key' ih =>
    cases v with
    | nil =>
      have hkq : k ≠ '"' := hkey k (by simp)
      have hne : (k == '"') = false := by simp [hkq]
      simp [List.isPrefixOf, hne]
    | cons c v' =>
      by_cases hkc : k = c
      · subst hkc
        have ihv := ih v' (fun x hx => hkey x (by simp [hx]))
          (fun x hx => hv x (by simp [hx]))
        simp [List.isPrefixOf, ihv]
      · simp [List.isPrefixOf, hkc]

theorem drop_append_exact (a b : List Char) (n : Nat) (h : n = a.length) :
    (a ++ b).drop n = b := by
  subst h
  simp

theorem take_append_exact (a b : List Char) (n : Nat) (h : n = a.length) :
    (a ++ b).take n = a := by
  subst h
  simp

theorem take_append_len (a b : List Char) (n : Nat) :
    (a ++ b).take (a.length + n) = a ++ b.take n := by
  induction a with
  | nil => simp
  | cons c a' ih => simp [List.take, Nat.succ_add, ih]

/-- Finding the closing quote right after a quote-free value. -/
theorem findSub_quote_after (v t : List Char) (hv : ∀ c ∈ v, c ≠ '"') :
    findSub ['"'] (v ++ '"' :: t) = some v.length := by
  rw [findSub_append_shift v hv]
  rw [findSub_of_isPrefixOf (by simp [List.isPrefixOf])]
  simp

theorem isPrefixOf_append_self (a b : List Char) : a.isPrefixOf (a ++ b) = true := by
  induction a with
  | nil => simp
  | cons c a' ih => simp [List.isPrefixOf, ih]

/-- `jsonGet` on a string that starts with the key's own pattern,
followed by a quote-free value and its closing quote, returns exactly
that value. -/
theorem jsonGet_cons_pattern (key v t : List Char) (hv : ∀ c ∈ v, c ≠ '"') :
    jsonGet (keyPattern key ++ (v ++ '"' :: t)) key = v := by
  have h1 : findSub (keyPattern key) (keyPattern key ++ (v ++ '"' :: t)) = some 0 :=
    findSub_of_isPrefixOf (isPrefixOf_append_self _ _)
  have h2 : (keyPattern key ++ (v ++ '"' :: t)).drop (0 + (keyPattern key).length)
      = v ++ '"' :: t := by
    rw [Nat.zero_add]
    exact drop_append_exact _ _ _ rfl
  simp only [jsonGet, h1, h2, findSub_quote_after v t hv]
  exact take_append_exact v ('"' :: t) _ rfl

/-! ### Per-byte facts about the URL encoder -/

set_option maxRecDepth 20000 in
theorem urlEncodeByte_eq_spec : ∀ b, b < 256 → urlEncodeByte b = specEncodeByte b := by
  decide

set_option maxRecDepth 20000 in
theorem char_toNat_ofNat : ∀ b, b < 256 → (Char.ofNat b).toNat = b := by decide

theorem percentDecode_cons_ne (c : Char) (rest : List Char) (h : c ≠ '%') :
    percentDecode (c :: rest) = c.toNat :: percentDecode rest := by
  match rest with
  | [] => simp [percentDecode, h]
  | [x] => simp [percentDecode, h]
  | x :: y :: t => simp [percentDecode, h]

theorem ucHex_props : ∀ n, n < 16 →
    isHexDigitChar (ucHexDigit n) = true ∧ hexDigitVal (ucHexDigit n) = n := by
  decide

/-- C3: for every byte string, `urlEncode` leaves each character of
the unreserved set `[A-Za-z0-9-_.~]` unchanged and turns every other
byte — high bytes included — into `%` followed by the two uppercase
hex digits of its value (the spec-worded encoder `specUrlEncode`). -/
theorem claim_C3 (bs : List Nat) (h : ∀ b ∈ bs, b < 256) :
    urlEncode bs = specUrlEncode bs := by
  induction bs with
  | nil => rfl
  | cons b rest ih =>
    have hb : b < 256 := h b (by simp)
    rw [urlEncode, specUrlEncode, urlEncodeByte_eq_spec b hb,
      ih (fun x hx => h x (by simp [hx]))]

/-- Witness for C3 at the bytes of `"h/é"` (0xE9 is a high byte). -/
theorem claim_C3_witness : urlEncode [104, 47, 233] = specUrlEncode [104, 47, 233] :=
  claim_C3 [104, 47, 233] (by decide)

/-- C4: percent-decoding the output of `urlEncode` restores the
original byte string — encoding round-trips. -/
theorem claim_C4 (bs : List Nat) (h : ∀ b ∈ bs, b < 256) :
    percentDecode (urlEncode bs) = bs := by
  induction bs with
  | nil => rfl
  | cons b rest ih =>
    have hb : b < 256 := h b (by simp)
    have ih' := ih (fun x hx => h x (by simp [hx]))
    rw [urlEncode, urlEncodeByte_eq_spec b hb, specEncodeByte]
    by_cases hu : specUnreserved b
    · rw [if_pos hu]
      have hne : Char.ofNat b ≠ '%' := by
        intro hcontra
        have h37 : (Char.ofNat b).toNat = 37 := by rw [hcontra]; rfl
        rw [char_toNat_ofNat b hb] at h37
        subst h37
        revert hu
        decide
      simp only [List.cons_append, List.nil_append]
      rw [percentDecode_cons_ne _ _ hne, char_toNat_ofNat b hb, ih']
    · rw [if_neg hu]
      have h1 := ucHex_props (b / 16) (by omega)
      have h2 := ucHex_props (b % 16) (by omega)
      simp only [List.cons_append, List.nil_append]
      rw [percentDecode]
      rw [if_pos ⟨h1.1, h2.1⟩, h1.2, h2.2, ih']
      congr 1
      omega

/-- Witness for C4 at a mixed unreserved/reserved/high-byte input. -/
theorem claim_C4_witness :
    percentDecode (urlEncode [115, 47, 0, 200, 255]) = [115, 47, 0, 200, 255] :=
  claim_C4 [115, 47, 0, 200, 255] (by decide)

/-- C9: `topicStatusCode` answers -1 whenever `"/res/"` does not
occur with at least four characters after it; in particular the
padding-free topic `$dps/registrations/res/200` yields -1, not 200,
because of the `p + 9 > length` bounds check. -/
theorem claim_C9 :
    (∀ topic : List Char,
      (∀ p, findSub resPattern topic = some p → topic.length < p + 9) →
      topicStatusCode topic = -1) ∧
    topicStatusCode ("$dps/registrations/res/200".toList) = -1 := by
  constructor
  · intro topic h
    cases hf : findSub resPattern topic with
    | none => simp [topicStatusCode, hf]
    | some p =>
      have hlt : topic.length < p + 9 := h p hf
      simp [topicStatusCode, hf, hlt]
  · decide

/-- Witness for C9, applying the bounds-check theorem to the claim's
own example topic (first occurrence of `"/res/"` at index 18, topic
length 26 < 27). -/
theorem claim_C9_witness :
    topicStatusCode ("$dps/registrations/res/200".toList) = -1 :=
  claim_C9.1 ("$dps/registrations/res/200".toList) (by
    intro p hp
    rw [show findSub resPattern ("$dps/registrations/res/200".toList) = some 18 from rfl] at hp
    cases hp
    decide)

theorem findSub_skip (p u : List Char) {t : List Char} {n : Nat}
    (h : ∀ j, j < u.length → p.isPrefixOf (u.drop j ++ t) = false)
    (hrec : findSub p t = some n) : findSub p (u ++ t) = some (n + u.length) := by
  rw [findSub_append_of_forall_not u h, hrec]
  rfl

theorem findSub_keyPattern_skip_value (key u : List Char) {t : List Char} {n : Nat}
    (hu : ∀ c ∈ u, c ≠ '"') (hrec : findSub (keyPattern key) t = some n) :
    findSub (keyPattern key) (u ++ t) = some (n + u.length) := by
  rw [show keyPattern key = '"' :: (key ++ '"' :: ':' :: '"' :: []) from rfl] at hrec ⊢
  rw [findSub_append_shift u hu, hrec]
  rfl

theorem jsonGet_of_parts (key pre v t s : List Char) (n : Nat)
    (hs : s = pre ++ (keyPattern key ++ (v ++ '"' :: t)))
    (hfind : findSub (keyPattern key) s = some n)
    (hn : n = pre.length)
    (hv : ∀ c ∈ v, c ≠ '"') :
    jsonGet s key = v := by
  subst hs hn
  simp only [jsonGet, hfind]
  have hdrop : (pre ++ (keyPattern key ++ (v ++ '"' :: t))).drop
      (pre.length + (keyPattern key).length) = v ++ '"' :: t := by
    rw [← List.append_assoc]
    exact drop_append_exact _ _ _ (by simp)
  rw [hdrop, findSub_quote_after v t hv]
  exact take_append_exact v _ _ rfl

theorem assignedBody_status (hub dev : List Char) :
    jsonGet (assignedBody hub dev) statusKey = assignedVal := by
  apply jsonGet_of_parts statusKey segA assignedVal
    (',' :: (parentPattern regStateKey ++ (keyPattern assignedHubKey ++ (hub ++ (segB ++
      (keyPattern deviceIdKey ++ (dev ++ ('"' :: rbrace :: rbrace :: []))))))))
    _ (0 + segA.length)
  · rfl
  · apply findSub_skip
    · intro j hj
      have hj' : j < 22 := by simpa [segA] using hj
      interval_cases j <;> rfl
    · exact findSub_of_isPrefixOf (isPrefixOf_append_self _ _)
  · rfl
  · decide

theorem assignedBody_nested (hub dev : List Char) (hhub : jsonValueOk hub)
    (hdev : jsonValueOk dev) (ck : List Char) :
    jsonGetNested (assignedBody hub dev) regStateKey ck =
      jsonGet (hubDevRegion hub dev ++ [rbrace]) ck := by
  have hfindP : findSub (parentPattern regStateKey) (assignedBody hub dev)
      = some (0 + segC.length) := by
    show findSub (parentPattern regStateKey)
      (segC ++ (parentPattern regStateKey ++
        (keyPattern assignedHubKey ++ (hub ++ (segB ++
          (keyPattern deviceIdKey ++ (dev ++ ('"' :: rbrace :: rbrace :: [])))))))) = _
    apply findSub_skip
    · intro j hj
      have hj' : j < 42 := by simpa [segC, segA, segB] using hj
      interval_cases j <;> rfl
    · exact findSub_of_isPrefixOf (isPrefixOf_append_self _ _)
  have hdrop : (assignedBody hub dev).drop
      (0 + segC.length + (parentPattern regStateKey).length)
      = keyPattern assignedHubKey ++ (hub ++ (segB ++
          (keyPattern deviceIdKey ++ (dev ++ ('"' :: rbrace :: rbrace :: []))))) := by
    show (segC ++ (parentPattern regStateKey ++ _)).drop _ = _
    rw [← List.append_assoc]
    exact drop_append_exact _ _ _ (by simp)
  have hR : keyPattern assignedHubKey ++ (hub ++ (segB ++
        (keyPattern deviceIdKey ++ (dev ++ ('"' :: rbrace :: rbrace :: [])))))
      = hubDevRegion hub dev ++ (rbrace :: rbrace :: []) := by
    simp [hubDevRegion, segB]
  have hregion : ∀ c ∈ hubDevRegion hub dev, c ≠ rbrace := by
    unfold hubDevRegion
    rw [List.forall_mem_append]
    refine ⟨by decide, ?_⟩
    rw [List.forall_mem_append]
    refine ⟨fun c hc => (hhub c hc).2, ?_⟩
    rw [List.forall_mem_cons]
    refine ⟨by decide, ?_⟩
    rw [List.forall_mem_cons]
    refine ⟨by decide, ?_⟩
    rw [List.forall_mem_append]
    refine ⟨by decide, ?_⟩
    rw [List.forall_mem_append]
    exact ⟨fun c hc => (hdev c hc).2, by decide⟩
  have hbrace : findSub [rbrace] (hubDevRegion hub dev ++ (rbrace :: rbrace :: []))
      = some (0 + (hubDevRegion hub dev).length) := by
    rw [findSub_append_shift (hubDevRegion hub dev) hregion]
    rw [findSub_of_isPrefixOf (p := [rbrace]) (by simp [List.isPrefixOf])]
    rfl
  simp only [jsonGetNested, hfindP, hdrop, hR, hbrace]
  simp only [Option.getD_some]
  rw [show 0 + (hubDevRegion hub dev).length + 1
      = (hubDevRegion hub dev).length + 1 by omega]
  rw [take_append_len]
  rfl

theorem region_hub (hub dev : List Char) (hhub : jsonValueOk hub) :
    jsonGet (hubDevRegion hub dev ++ [rbrace]) assignedHubKey = hub := by
  apply jsonGet_of_parts assignedHubKey [] hub
    (',' :: (keyPattern deviceIdKey ++ (dev ++ ('"' :: [rbrace])))) _ 0
  · simp [hubDevRegion]
  · apply findSub_of_isPrefixOf (isPrefixOf_append_self _ _)
  · rfl
  · exact fun c hc => (hhub c hc).1

theorem region_dev (hub dev : List Char) (hhub : jsonValueOk hub)
    (hdev : jsonValueOk dev) :
    jsonGet (hubDevRegion hub dev ++ [rbrace]) deviceIdKey = dev := by
  have hs : hubDevRegion hub dev ++ [rbrace]
      = keyPattern assignedHubKey ++ (hub ++ ('"' :: ',' ::
          (keyPattern deviceIdKey ++ (dev ++ ('"' :: [rbrace]))))) := by
    simp [hubDevRegion]
  have hrec2 : findSub (keyPattern deviceIdKey)
      (keyPattern deviceIdKey ++ (dev ++ ('"' :: [rbrace]))) = some 0 :=
    findSub_of_isPrefixOf (isPrefixOf_append_self _ _)
  have hrec1 : findSub (keyPattern deviceIdKey)
      (('"' :: ',' :: []) ++ (keyPattern deviceIdKey ++ (dev ++ ('"' :: [rbrace]))))
      = some (0 + 2) := by
    apply findSub_skip
    · intro j hj
      have hj' : j < 2 := by simpa using hj
      interval_cases j <;> rfl
    · exact hrec2
  have hrec0 : findSub (keyPattern deviceIdKey)
      (hub ++ (('"' :: ',' :: []) ++ (keyPattern deviceIdKey ++ (dev ++ ('"' :: [rbrace])))))
      = some (0 + 2 + hub.length) :=
    findSub_keyPattern_skip_value deviceIdKey hub (fun c hc => (hhub c hc).1) hrec1
  have hfind : findSub (keyPattern deviceIdKey)
      (keyPattern assignedHubKey ++ (hub ++ ('"' :: ',' ::
        (keyPattern deviceIdKey ++ (dev ++ ('"' :: [rbrace]))))))
      = some (0 + 2 + hub.length + (keyPattern assignedHubKey).length) := by
    apply findSub_skip
    · intro j hj
      have hj' : j < 15 := by simpa [keyPattern, assignedHubKey] using hj
      interval_cases j
      case _ => rfl
      all_goals (try rfl)
      -- j = 14: the straddle case, resolved through the no-prefix lemma
      show (keyPattern deviceIdKey).isPrefixOf
        (('"' :: []) ++ (hub ++ ('"' :: ',' ::
          (keyPattern deviceIdKey ++ (dev ++ ('"' :: [rbrace])))))) = false
      show ('"' :: (deviceIdKey ++ '"' :: ':' :: '"' :: [])).isPrefixOf
        ('"' :: (hub ++ ('"' :: ',' ::
          (keyPattern deviceIdKey ++ (dev ++ ('"' :: [rbrace])))))) = false
      rw [List.isPrefixOf_cons₂_self]
      exact keyPattern_tail_no_prefix deviceIdKey hub ','
        (keyPattern deviceIdKey ++ (dev ++ ('"' :: [rbrace])))
        (by decide) (fun c hc => (hhub c hc).1) (by decide)
    · exact hrec0
  apply jsonGet_of_parts deviceIdKey
    (keyPattern assignedHubKey ++ (hub ++ ('"' :: ',' :: []))) dev [rbrace] _
    (0 + 2 + hub.length + (keyPattern assignedHubKey).length)
  · rw [hs]
    simp
  · rw [hs]
    exact hfind
  · simp [keyPattern, assignedHubKey]
    omega
  · exact fun c hc => (hdev c hc).1

theorem initialWait_resp200 (hub dev : List Char) (rest : List DpsResp)
    (hhub : jsonValueOk hub) (hdev : jsonValueOk dev)
    (hh : hub ≠ []) (hd : dev ≠ []) :
    initialWait (resp200 hub dev :: rest) = .immediate hub dev := by
  have ht : topicStatusCode (resp200 hub dev).topic = 200 := by
    show topicStatusCode topic200 = 200
    decide
  have hhub' : jsonGetNested (resp200 hub dev).payload regStateKey assignedHubKey
      = hub := by
    show jsonGetNested (assignedBody hub dev) regStateKey assignedHubKey = hub
    rw [assignedBody_nested hub dev hhub hdev, region_hub hub dev hhub]
  have hdev' : jsonGetNested (resp200 hub dev).payload regStateKey deviceIdKey
      = dev := by
    show jsonGetNested (assignedBody hub dev) regStateKey deviceIdKey = dev
    rw [assignedBody_nested hub dev hhub hdev, region_dev hub dev hhub hdev]
  simp only [initialWait, ht, hhub', hdev']
  simp [hh, hd]

theorem initialWait_skip (r : DpsResp) (rest : List DpsResp)
    (h200 : topicStatusCode r.topic ≠ 200) (h202 : topicStatusCode r.topic ≠ 202) :
    initialWait (r :: rest) = initialWait rest := by
  simp only [initialWait]
  rw [if_neg h202, if_neg h200]

theorem pollAttempts_all_none (fuel : Nat) (polls : List (Option DpsResp))
    (hall : ∀ x ∈ polls, x = none) : pollAttempts fuel polls = .failed := by
  induction fuel generalizing polls with
  | zero => rfl
  | succ f ih =>
    cases polls with
    | nil => exact ih [] (by simp)
    | cons x rest =>
      have hx : x = none := hall x (by simp)
      subst hx
      exact ih rest (fun y hy => hall y (by simp [hy]))

theorem pollAttempts_benign_cons (f : Nat) (x : Option DpsResp)
    (rest : List (Option DpsResp)) (hx : pollBenign x) :
    pollAttempts (f + 1) (x :: rest) = pollAttempts f rest := by
  cases x with
  | none => rfl
  | some r =>
    have hb := hx r rfl
    simp only [pollAttempts]
    by_cases h200 : topicStatusCode r.topic = 200
    · rw [if_pos h200, if_neg (fun hc => hb ⟨h200, hc⟩)]
    · rw [if_neg h200]

theorem pollAttempts_assigned (hub dev : List Char)
    (hhub : jsonValueOk hub) (hdev : jsonValueOk dev)
    (hh : hub ≠ []) (hd : dev ≠ []) :
    ∀ (pre : List (Option DpsResp)) (f : Nat), pre.length < f →
      (∀ x ∈ pre, pollBenign x) →
      pollAttempts f (pre ++ [some (resp200 hub dev)]) = .assigned hub dev := by
  intro pre
  induction pre with
  | nil =>
    intro f hf _
    match f, hf with
    | f' + 1, _ =>
      have ht : topicStatusCode (resp200 hub dev).topic = 200 := by
        show topicStatusCode topic200 = 200
        decide
      have hst : jsonGet (resp200 hub dev).payload statusKey = assignedVal := by
        show jsonGet (assignedBody hub dev) statusKey = assignedVal
        exact assignedBody_status hub dev
      have hhub' : jsonGetNested (resp200 hub dev).payload regStateKey assignedHubKey
          = hub := by
        show jsonGetNested (assignedBody hub dev) regStateKey assignedHubKey = hub
        rw [assignedBody_nested hub dev hhub hdev, region_hub hub dev hhub]
      have hdev' : jsonGetNested (resp200 hub dev).payload regStateKey deviceIdKey
          = dev := by
        show jsonGetNested (assignedBody hub dev) regStateKey deviceIdKey = dev
        rw [assignedBody_nested hub dev hhub hdev, region_dev hub dev hhub hdev]
      show pollAttempts (f' + 1) (some (resp200 hub dev) :: []) = _
      simp only [pollAttempts, ht, hst, hhub', hdev']
      simp [hh, hd]
  | cons x pre' ih =>
    intro f hf hben
    match f, hf with
    | f' + 1, hf2 =>
      rw [List.cons_append,
        pollAttempts_benign_cons f' x _ (hben x (by simp))]
      exact ih f' (by simpa using hf2) (fun y hy => hben y (by simp [hy]))

/-- C2: fed a scripted immediate status-200 response carrying
well-formed nonempty `assignedHub`/`deviceId` fields, or a status-202
response (operationId `op-1`) followed by fewer than 20 benign poll
replies and then a status-200 `assigned` response, the handshake
terminates in Assigned with exactly the hub and deviceId of that
response; fed no responses at all — an empty initial window, or poll
attempts that all time out (`none`) — it terminates in Failed after
its bounded waits (the 20-s window is modelled by exhaustion of the
initial script, the 20 poll attempts by the source's retry bound
`DPS_POLL_TRIES`). -/
theorem claim_C2 :
    (∀ hub dev : List Char, jsonValueOk hub → jsonValueOk dev →
      hub ≠ [] → dev ≠ [] → ∀ polls,
      dpsRegisterAndGetHub [resp200 hub dev] polls = .assigned hub dev) ∧
    (∀ hub dev : List Char, jsonValueOk hub → jsonValueOk dev →
      hub ≠ [] → dev ≠ [] →
      ∀ pre : List (Option DpsResp), pre.length < DPS_POLL_TRIES →
      (∀ x ∈ pre, pollBenign x) →
      dpsRegisterAndGetHub [resp202] (pre ++ [some (resp200 hub dev)])
        = .assigned hub dev) ∧
    (∀ polls, dpsRegisterAndGetHub [] polls = .failed) ∧
    (∀ polls, (∀ x ∈ polls, x = none) →
      dpsRegisterAndGetHub [resp202] polls = .failed) := by
  refine ⟨?_, ?_, ?_, ?_⟩
  · intro hub dev hhub hdev hh hd polls
    simp only [dpsRegisterAndGetHub, initialWait_resp200 hub dev [] hhub hdev hh hd]
  · intro hub dev hhub hdev hh hd pre hlen hben
    have h202 : initialWait [resp202] = .gotOp ("op-1".toList) := by decide
    simp only [dpsRegisterAndGetHub, h202]
    rw [if_neg (by decide)]
    exact pollAttempts_assigned hub dev hhub hdev hh hd pre DPS_POLL_TRIES hlen hben
  · intro polls
    rfl
  · intro polls hall
    have h202 : initialWait [resp202] = .gotOp ("op-1".toList) := by decide
    simp only [dpsRegisterAndGetHub, h202]
    rw [if_neg (by decide)]
    exact pollAttempts_all_none DPS_POLL_TRIES polls hall

/-- Witness for C2: a 202, one silent attempt, one benign 500 reply,
then the assignment response. -/
theorem claim_C2_witness :
    dpsRegisterAndGetHub
        [resp202]
        [none, some resp500, some (resp200 ("h1.azure-devices.net".toList) ("dev-1".toList))]
      = .assigned ("h1.azure-devices.net".toList) ("dev-1".toList) :=
  claim_C2.2.1 ("h1.azure-devices.net".toList) ("dev-1".toList)
    (by decide) (by decide) (by decide) (by decide)
    [none, some resp500] (by decide)
    (by
      intro x hx r hr
      simp only [List.mem_cons, List.not_mem_nil, or_false] at hx
      rcases hx with hx | hx
      · rw [hx] at hr
        cases hr
      · rw [hx] at hr
        cases hr
        decide)

/-- C6 (amended): a response with a status other than 202/200 during
the initial wait is logged and ignored — the handshake on `r :: rs`
equals the handshake on `rs` — and the attempt Fails when the window
elapses with every received status unexpected; a single unexpected
response does not by itself end the attempt. -/
theorem claim_C6 :
    (∀ (r : DpsResp) (rs : List DpsResp) (polls : List (Option DpsResp)),
      topicStatusCode r.topic ≠ 200 → topicStatusCode r.topic ≠ 202 →
      dpsRegisterAndGetHub (r :: rs) polls = dpsRegisterAndGetHub rs polls) ∧
    (∀ (rs : List DpsResp) (polls : List (Option DpsResp)),
      (∀ r ∈ rs, topicStatusCode r.topic ≠ 200 ∧ topicStatusCode r.topic ≠ 202) →
      dpsRegisterAndGetHub rs polls = .failed) := by
  constructor
  · intro r rs polls h200 h202
    simp only [dpsRegisterAndGetHub, initialWait_skip r rs h200 h202]
  · intro rs
    induction rs with
    | nil => intro polls _; rfl
    | cons r rs' ih =>
      intro polls hall
      have hr := hall r (by simp)
      simp only [dpsRegisterAndGetHub, initialWait_skip r rs' hr.1 hr.2]
      exact ih polls (fun y hy => hall y (by simp [hy]))

set_option maxRecDepth 20000 in
/-- Counterexample to C6 as stated: a status-500 response arrives
first in the Registering state, yet the machine does not transition
to Failed — a later 202 and an assignment poll still end Assigned. -/
theorem claim_C6_counterexample :
    dpsRegisterAndGetHub [resp500, resp202]
        [some (resp200 ("h1.azure-devices.net".toList) ("dev-1".toList))]
      = .assigned ("h1.azure-devices.net".toList) ("dev-1".toList) ∧
    DpsOutcome.assigned ("h1.azure-devices.net".toList) ("dev-1".toList)
      ≠ .failed := by
  constructor
  · decide
  · decide

/-- C10: `jsonGet` answers the empty string both when the key's
pattern is immediately followed by the closing quote (present but
empty value) and when the pattern is absent, so the two payloads are
indistinguishable to callers; consequently a status-200 assignment
response whose `assignedHub` is present but empty leaves the
handshake in Failed, not Assigned. -/
theorem claim_C10 :
    (∀ s key : List Char, ∀ p : Nat,
      findSub (keyPattern key) s = some p →
      (s.drop (p + (keyPattern key).length)).head? = some '"' →
      jsonGet s key = []) ∧
    (∀ s key : List Char, findSub (keyPattern key) s = none → jsonGet s key = []) ∧
    dpsRegisterAndGetHub [⟨topic200, assignedBody [] ("d1".toList)⟩] [] = .failed := by
  refine ⟨?_, ?_, ?_⟩
  · intro s key p hfind hhead
    simp only [jsonGet, hfind]
    cases hr : (s.drop (p + (keyPattern key).length)) with
    | nil => simp [hr] at hhead
    | cons c r' =>
      rw [hr] at hhead
      simp only [List.head?] at hhead
      cases hhead
      rw [findSub_of_isPrefixOf (p := ['"']) (by simp [List.isPrefixOf])]
      rfl
  · intro s key hfind
    simp only [jsonGet, hfind]
  · decide

/-- Witness for C10 on the payload `"k":""`. -/
theorem claim_C10_witness :
    jsonGet ("\"k\":\"\"".toList) (['k']) = [] :=
  claim_C10.1 ("\"k\":\"\"".toList) ['k'] 0 (by decide) (by decide)

theorem findSub_single_takeWhile (ch : Char) (l : List Char) :
    findSub [ch] l =
      if (l.takeWhile (fun c => c != ch)).length < l.length then
        some (l.takeWhile (fun c => c != ch)).length
      else none := by
  induction l with
  | nil => rfl
  | cons c rest ih =>
    by_cases hc : c = ch
    · subst hc
      rw [findSub_cons_pos (by simp [List.isPrefixOf])]
      simp [List.takeWhile]
    · rw [findSub_cons_neg (by
        simp [List.isPrefixOf]
        exact fun h => hc h.symm)]
      have hb : (c != ch) = true := by simp [hc]
      rw [ih]
      simp only [List.takeWhile, hb]
      by_cases hlt : (rest.takeWhile (fun c => c != ch)).length < rest.length
      · rw [if_pos hlt, if_pos (by simpa using Nat.succ_lt_succ hlt)]
        rfl
      · rw [if_neg hlt, if_neg (by simpa using fun h => hlt (Nat.lt_of_succ_lt_succ h))]
        rfl

theorem dropWhile_head_brace (l : List Char)
    (h : (l.takeWhile (fun c => c != rbrace)).length < l.length) :
    ∃ d, l.dropWhile (fun c => c != rbrace) = rbrace :: d := by
  induction l with
  | nil => simp at h
  | cons c rest ih =>
    by_cases hc : c = rbrace
    · subst hc
      exact ⟨rest, by simp [List.dropWhile]⟩
    · have hb : (c != rbrace) = true := by simp [hc]
      simp only [List.takeWhile, List.dropWhile, hb] at h ⊢
      exact ih (by simpa using h)

theorem jsonGet_nil (key : List Char) : jsonGet [] key = [] := by
  have : findSub (keyPattern key) [] = none := findSub_nil (by simp [keyPattern])
  simp [jsonGet, this]

/-- C5 (amended): `jsonGetNested` isolates the region reaching the
FIRST closing brace after the parent pattern — the maximal brace-free
prefix of the content plus that brace, or the whole remainder when no
brace follows — and applies `getField` inside it; consequently a
nested sub-object appearing before the child key truncates the region
and the child key is NOT found (second conjunct). -/
theorem claim_C5 :
    (∀ s parentKey childKey : List Char,
      jsonGetNested s parentKey childKey
        = jsonGet (isolateFirstBrace s parentKey) childKey) ∧
    jsonGetNested
        (parentPattern regStateKey ++ ("\"tags\":".toList ++ (lbrace ::
          ("\"env\":\"test\"".toList ++ (rbrace :: (',' ::
            (keyPattern assignedHubKey ++ ("h".toList ++ ('"' :: [rbrace])))))))))
        regStateKey assignedHubKey = [] := by
  constructor
  · intro s pk ck
    simp only [jsonGetNested, isolateFirstBrace]
    cases hf : findSub (parentPattern pk) s with
    | none => exact (jsonGet_nil ck).symm
    | some p =>
      simp only
      rw [findSub_single_takeWhile rbrace]
      by_cases hlt : ((s.drop (p + (parentPattern pk).length)).takeWhile
          (fun c => c != rbrace)).length < (s.drop (p + (parentPattern pk).length)).length
      · rw [if_pos hlt, if_pos hlt]
        simp only [Option.getD_some]
        congr 1
        obtain ⟨d, hd⟩ := dropWhile_head_brace _ hlt
        have hL : s.drop (p + (parentPattern pk).length)
            = (s.drop (p + (parentPattern pk).length)).takeWhile (fun c => c != rbrace)
              ++ (rbrace :: d) := by
          rw [← hd, List.takeWhile_append_dropWhile]
        set tw := (s.drop (p + (parentPattern pk).length)).takeWhile (fun c => c != rbrace)
        rw [hL, take_append_len]
        rfl
      · rw [if_neg hlt, if_neg hlt]
        simp only [Option.getD_none]
        have hle : (s.drop (p + (parentPattern pk).length)).length
            ≤ ((s.drop (p + (parentPattern pk).length)).takeWhile
              (fun c => c != rbrace)).length := Nat.le_of_not_lt hlt
        have heq : (s.drop (p + (parentPattern pk).length)).takeWhile
            (fun c => c != rbrace) = s.drop (p + (parentPattern pk).length) :=
          (List.takeWhile_prefix _).eq_of_length
            (Nat.le_antisymm (List.takeWhile_prefix _).length_le hle)
        rw [heq, List.take_of_length_le (by omega)]
  · decide

/-- Counterexample to C5 as stated: on a parent object holding a
nested sub-object before the child key, the code answers the empty
string, while the claim's matching-brace extractor finds `h`. -/
theorem claim_C5_counterexample :
    jsonGetNested
        (parentPattern regStateKey ++ ("\"tags\":".toList ++ (lbrace ::
          ("\"env\":\"test\"".toList ++ (rbrace :: (',' ::
            (keyPattern assignedHubKey ++ ("h".toList ++ ('"' :: [rbrace])))))))))
        regStateKey assignedHubKey = [] ∧
    jsonGetNestedSpec
        (parentPattern regStateKey ++ ("\"tags\":".toList ++ (lbrace ::
          ("\"env\":\"test\"".toList ++ (rbrace :: (',' ::
            (keyPattern assignedHubKey ++ ("h".toList ++ ('"' :: [rbrace])))))))))
        regStateKey assignedHubKey = "h".toList := by
  constructor
  · decide
  · decide

theorem constrain_mono (low high r₁ r₂ : Int) (hlh : low ≤ high) (h : r₁ ≤ r₂) :
    constrain r₁ low high ≤ constrain r₂ low high := by
  unfold constrain
  split_ifs <;> omega

theorem constrain_mem (low high amt : Int) (h : low ≤ high) :
    low ≤ constrain amt low high ∧ constrain amt low high ≤ high := by
  unfold constrain
  split_ifs <;> omega

/-- C7: with `wetRaw < dryRaw` the conversion is antitone in the raw
reading and always lands in `[0, 100]`; it equals the clamp-then-map
formula written with `max`/`min`, and at the sketch's calibration
3000 ↦ 0, 1200 ↦ 100, and the out-of-range 600 clamps to 100. -/
theorem claim_C7 :
    (∀ dry wet r₁ r₂ : Int, wet < dry → r₁ ≤ r₂ →
      soilRawToPercentCal dry wet r₂ ≤ soilRawToPercentCal dry wet r₁) ∧
    (∀ dry wet r : Int, wet < dry →
      0 ≤ soilRawToPercentCal dry wet r ∧ soilRawToPercentCal dry wet r ≤ 100) ∧
    (∀ raw : Int, soilRawToPercent raw
      = 100 * ((3000 : ℚ) - ((max 1200 (min 3000 raw) : Int) : ℚ)) / (3000 - 1200)) ∧
    soilRawToPercent 3000 = 0 ∧ soilRawToPercent 1200 = 100 ∧
    soilRawToPercent 600 = 100 := by
  have hD : ∀ dry wet : Int, wet < dry → (0 : ℚ) < (dry : ℚ) - (wet : ℚ) := by
    intro dry wet h
    have : (wet : ℚ) < (dry : ℚ) := by exact_mod_cast h
    linarith
  refine ⟨?_, ?_, ?_, ?_, ?_, ?_⟩
  · intro dry wet r₁ r₂ hwd hr
    unfold soilRawToPercentCal
    have hc := constrain_mono wet dry r₁ r₂ (le_of_lt hwd) hr
    have hc' : ((constrain r₁ wet dry : Int) : ℚ) ≤ ((constrain r₂ wet dry : Int) : ℚ) := by
      exact_mod_cast hc
    exact (div_le_div_iff_of_pos_right (hD dry wet hwd)).mpr (by nlinarith)
  · intro dry wet r hwd
    unfold soilRawToPercentCal
    obtain ⟨h1, h2⟩ := constrain_mem wet dry r (le_of_lt hwd)
    have h1' : ((wet : Int) : ℚ) ≤ ((constrain r wet dry : Int) : ℚ) := by exact_mod_cast h1
    have h2' : ((constrain r wet dry : Int) : ℚ) ≤ ((dry : Int) : ℚ) := by exact_mod_cast h2
    have hDq := hD dry wet hwd
    constructor
    · apply div_nonneg ?_ (le_of_lt hDq)
      nlinarith
    · rw [div_le_iff₀ hDq]
      nlinarith
  · intro raw
    have hc : constrain raw SOIL_RAW_WET SOIL_RAW_DRY = max 1200 (min 3000 raw) := by
      unfold constrain SOIL_RAW_WET SOIL_RAW_DRY
      split_ifs <;> omega
    unfold soilRawToPercent soilRawToPercentCal
    rw [hc]
    norm_num [SOIL_RAW_DRY, SOIL_RAW_WET]
  · norm_num [soilRawToPercent, soilRawToPercentCal, constrain, SOIL_RAW_DRY, SOIL_RAW_WET]
  · norm_num [soilRawToPercent, soilRawToPercentCal, constrain, SOIL_RAW_DRY, SOIL_RAW_WET]
  · norm_num [soilRawToPercent, soilRawToPercentCal, constrain, SOIL_RAW_DRY, SOIL_RAW_WET]

/-- Witness for C7: antitonicity at the calibration bounds, raw
1500 ≤ 2000. -/
theorem claim_C7_witness :
    soilRawToPercentCal 3000 1200 2000 ≤ soilRawToPercentCal 3000 1200 1500 :=
  claim_C7.1 3000 1200 1500 2000 (by norm_num) (by norm_num)

/-- C8 (amended): a fresh token is derived only when a tick finds the
session disconnected — that token's expiry is one hour from then;
while the session stays connected every tick returns immediately with
the state untouched, so no renewal happens before expiry and a
connected session may be maintained past `sasExpiry`. -/
theorem claim_C8 :
    (∀ (now : Nat) (ok : Bool) (s : HubSession), s.connected = true →
      ensureIoTHubMqtt now ok s = (true, s)) ∧
    (∀ (now : Nat) (ok : Bool) (s : HubSession), s.connected = false →
      ensureIoTHubMqtt now ok s
        = (ok, ⟨ok, now + SAS_TTL_SECS, s.tokensIssued + 1⟩)) := by
  constructor
  · intro now ok s h
    simp [ensureIoTHubMqtt, h]
  · intro now ok s h
    simp [ensureIoTHubMqtt, h]

/-- Counterexample to C8 as stated: connect at t = 1000 (token
expiry 4600); at t = 10000, well past expiry, the tick keeps the
session connected and unchanged — same token count, stale expiry —
so the session is maintained past the token's expiry with no fresh
token derived. -/
theorem claim_C8_counterexample :
    ensureIoTHubMqtt 1000 true ⟨false, 0, 0⟩ = (true, ⟨true, 4600, 1⟩) ∧
    ensureIoTHubMqtt 10000 true ⟨true, 4600, 1⟩ = (true, ⟨true, 4600, 1⟩) ∧
    4600 < 10000 := by
  refine ⟨by decide, by decide, by decide⟩

/-- Witness for C8 on a connected and a disconnected state. -/
theorem claim_C8_witness :
    ensureIoTHubMqtt 5 true ⟨true, 42, 1⟩ = (true, ⟨true, 42, 1⟩) ∧
    ensureIoTHubMqtt 7 false ⟨false, 42, 1⟩ = (false, ⟨false, 3607, 2⟩) :=
  ⟨claim_C8.1 5 true ⟨true, 42, 1⟩ rfl, claim_C8.2 7 false ⟨false, 42, 1⟩ rfl⟩

example : sha256 [] =
    [0xe3, 0xb0, 0xc4, 0x42, 0x98, 0xfc, 0x1c, 0x14, 0x9a, 0xfb, 0xf4, 0xc8,
     0x99, 0x6f, 0xb9, 0x24, 0x27, 0xae, 0x41, 0xe4, 0x64, 0x9b, 0x93, 0x4c,
     0xa4, 0x95, 0x99, 0x1b, 0x78, 0x52, 0xb8, 0x55] := by decide

example : sha256 [0x61, 0x62, 0x63] =
    [0xba, 0x78, 0x16, 0xbf, 0x8f, 0x01, 0xcf, 0xea, 0x41, 0x41, 0x40, 0xde,
     0x5d, 0xae, 0x22, 0x23, 0xb0, 0x03, 0x61, 0xa3, 0x96, 0x17, 0x7a, 0x9c,
     0xb4, 0x10, 0xff, 0x61, 0xf2, 0x00, 0x15, 0xad] := by decide

set_option maxRecDepth 100000 in
example : hmacSha256 (List.replicate 20 0x0b)
    [0x48, 0x69, 0x20, 0x54, 0x68, 0x65, 0x72, 0x65] =
    [0xb0, 0x34, 0x4c, 0x61, 0xd8, 0xdb, 0x38, 0x53, 0x5c, 0xa8, 0xaf, 0xce,
     0xaf, 0x0b, 0xf1, 0x2b, 0x88, 0x1d, 0xc2, 0x00, 0xc9, 0x83, 0x3d, 0xa7,
     0x26, 0xe9, 0x37, 0x6c, 0x2e, 0x32, 0xcf, 0xf7] := by decide

example : base64Encode [0x4d, 0x61, 0x6e] = "TWFu".toList := by decide
example : base64Decode ("TWFu".toList) = some [0x4d, 0x61, 0x6e] := by decide
example : base64Decode ("abc123==".toList) = some [0x69, 0xb7, 0x35, 0xdb] := by decide
example : base64Decode ("ab!d".toList) = none := by decide

theorem buildSasToken_eq (uri : List Nat) (secret : List Char) (expiry : Nat)
    (key : List Nat) (hdec : base64Decode secret = some key)
    (hlen : key.length ≤ 64) (hexp : expiry < 4294967296) :
    buildSasToken uri secret expiry =
      "SharedAccessSignature sr=".toList ++ urlEncode (toLowerBytes uri)
        ++ ("&sig=".toList
        ++ (urlEncode ((base64Encode (hmacSha256 key
            ((urlEncode (toLowerBytes uri)).map Char.toNat
              ++ (10 :: (Nat.repr expiry).toList.map Char.toNat)))).map Char.toNat)
        ++ ("&se=".toList ++ (Nat.repr expiry).toList))) := by
  simp only [buildSasToken, hdec]
  rw [if_neg (Nat.not_lt.mpr hlen), Nat.mod_eq_of_lt hexp]

theorem isSuffixOf_append_self (a b : List Char) : b.isSuffixOf (a ++ b) = true := by
  unfold List.isSuffixOf
  rw [List.reverse_append]
  exact isPrefixOf_append_self _ _

/-- C1: whenever the device key decodes from base64 (into the 64-byte
buffer) the token is exactly
`SharedAccessSignature sr=<R>&sig=<S>&se=<E>` with `R` the
url-encoding of the lowercased resource URI, `E` the decimal expiry,
and `S` the url-encoding of the base64 encoding of the HMAC-SHA256,
keyed with the decoded secret, of `urlEncode(lowered uri) + "\n" +
decimal expiry; and for secret `abc123==`, resource
`scope/registrations/dev-1`, expiry 1700000000, the token starts with
`SharedAccessSignature sr=scope%2Fregistrations%2Fdev-1&sig=` and
ends with `&se=1700000000`. -/
theorem claim_C1 :
    (∀ (uri : List Nat) (secret : List Char) (expiry : Nat) (key : List Nat),
      base64Decode secret = some key → key.length ≤ 64 → expiry < 4294967296 →
      buildSasToken uri secret expiry =
        "SharedAccessSignature sr=".toList ++ urlEncode (toLowerBytes uri)
          ++ ("&sig=".toList
          ++ (urlEncode ((base64Encode (hmacSha256 key
              ((urlEncode (toLowerBytes uri)).map Char.toNat
                ++ (10 :: (Nat.repr expiry).toList.map Char.toNat)))).map Char.toNat)
          ++ ("&se=".toList ++ (Nat.repr expiry).toList)))) ∧
    ("SharedAccessSignature sr=scope%2Fregistrations%2Fdev-1&sig=".toList.isPrefixOf
      (buildSasToken ("scope/registrations/dev-1".toList.map Char.toNat)
        ("abc123==".toList) 1700000000) = true) ∧
    ("&se=1700000000".toList.isSuffixOf
      (buildSasToken ("scope/registrations/dev-1".toList.map Char.toNat)
        ("abc123==".toList) 1700000000) = true) := by
  have hu : urlEncode (toLowerBytes ("scope/registrations/dev-1".toList.map Char.toNat))
      = "scope%2Fregistrations%2Fdev-1".toList := by decide
  have heq := buildSasToken_eq ("scope/registrations/dev-1".toList.map Char.toNat)
    ("abc123==".toList) 1700000000 [0x69, 0xb7, 0x35, 0xdb]
    (by decide) (by decide) (by decide)
  refine ⟨fun uri secret expiry key hdec hlen hexp =>
    buildSasToken_eq uri secret expiry key hdec hlen hexp, ?_, ?_⟩
  · rw [heq, hu]
    rw [show ("SharedAccessSignature sr=".toList
        ++ "scope%2Fregistrations%2Fdev-1".toList
        ++ ("&sig=".toList ++ (urlEncode ((base64Encode (hmacSha256 [0x69, 0xb7, 0x35, 0xdb]
            (("scope%2Fregistrations%2Fdev-1".toList).map Char.toNat
              ++ (10 :: (Nat.repr 1700000000).toList.map Char.toNat)))).map Char.toNat)
        ++ ("&se=".toList ++ (Nat.repr 1700000000).toList))))
      = "SharedAccessSignature sr=scope%2Fregistrations%2Fdev-1&sig=".toList
        ++ (urlEncode ((base64Encode (hmacSha256 [0x69, 0xb7, 0x35, 0xdb]
            (("scope%2Fregistrations%2Fdev-1".toList).map Char.toNat
              ++ (10 :: (Nat.repr 1700000000).toList.map Char.toNat)))).map Char.toNat)
        ++ ("&se=".toList ++ (Nat.repr 1700000000).toList)) by
      simp [List.append_assoc]]
    exact isPrefixOf_append_self _ _
  · rw [heq, hu]
    rw [show ("SharedAccessSignature sr=".toList
        ++ "scope%2Fregistrations%2Fdev-1".toList
        ++ ("&sig=".toList ++ (urlEncode ((base64Encode (hmacSha256 [0x69, 0xb7, 0x35, 0xdb]
            (("scope%2Fregistrations%2Fdev-1".toList).map Char.toNat
              ++ (10 :: (Nat.repr 1700000000).toList.map Char.toNat)))).map Char.toNat)
        ++ ("&se=".toList ++ (Nat.repr 1700000000).toList))))
      = ("SharedAccessSignature sr=".toList
        ++ ("scope%2Fregistrations%2Fdev-1".toList
        ++ ("&sig=".toList ++ urlEncode ((base64Encode (hmacSha256 [0x69, 0xb7, 0x35, 0xdb]
            (("scope%2Fregistrations%2Fdev-1".toList).map Char.toNat
              ++ (10 :: (Nat.repr 1700000000).toList.map Char.toNat)))).map Char.toNat))))
        ++ "&se=1700000000".toList by
      rw [show ("&se=1700000000".toList)
        = "&se=".toList ++ (Nat.repr 1700000000).toList by decide]
      simp [List.append_assoc]]
    exact isSuffixOf_append_self _ _

/-- Witness for C1 at the claim's own scenario (decoded key bytes
`69 b7 35 db`). -/
theorem claim_C1_witness :
    buildSasToken ("scope/registrations/dev-1".toList.map Char.toNat)
        ("abc123==".toList) 1700000000
      = "SharedAccessSignature sr=".toList
        ++ urlEncode (toLowerBytes ("scope/registrations/dev-1".toList.map Char.toNat))
        ++ ("&sig=".toList
        ++ (urlEncode ((base64Encode (hmacSha256 [0x69, 0xb7, 0x35, 0xdb]
            ((urlEncode (toLowerBytes
                ("scope/registrations/dev-1".toList.map Char.toNat))).map Char.toNat
              ++ (10 :: (Nat.repr 1700000000).toList.map Char.toNat)))).map Char.toNat)
        ++ ("&se=".toList ++ (Nat.repr 1700000000).toList))) :=
  claim_C1.1 ("scope/registrations/dev-1".toList.map Char.toNat)
    ("abc123==".toList) 1700000000 [0x69, 0xb7, 0x35, 0xdb]
    (by decide) (by decide) (by decide)

/-- Witness for C6: a window containing only a status-500 response
ends in Failed once the window elapses. -/
theorem claim_C6_witness :
    dpsRegisterAndGetHub [resp500] [] = .failed :=
  claim_C6.2 [resp500] [] (by
    intro r hr
    simp only [List.mem_singleton] at hr
    subst hr
    exact ⟨by decide, by decide⟩)
